import Mathlib

/-!
Verification of the `jpdg` slicer client (`scripts/jpdg/slicer.py`).

The program is a Python 2 client for a line-oriented request/response
protocol spoken with a `slicebot` subprocess.  Strings in Python 2 are byte
strings, so the wire level is modelled as `List Nat` with every byte below
256; the decoded, text-level payloads (candidates parsing, response
dispatch) are modelled as `List Char` / `String` for readability.

Each definition carries a doc comment naming the Python source function it
embeds.
-/

namespace Slicer

/-! ### Base64 (Python 2 `str.encode('base64')` / `str.decode('base64')`) -/

/-- Byte value of the base64 alphabet character for a sextet, as used by
`binascii.b2a_base64`: indices 0-25 map to A-Z, 26-51 to a-z, 52-61 to 0-9,
62 to the plus sign and 63 to the slash. -/
def encChar (n : Nat) : Nat :=
  if n < 26 then 65 + n
  else if n < 52 then 97 + (n - 26)
  else if n < 62 then 48 + (n - 52)
  else if n = 62 then 43
  else 47

/-- Inverse table of `encChar`: byte value of a base64 alphabet character
back to its sextet, as used by `binascii.a2b_base64`. -/
def decChar (c : Nat) : Nat :=
  if 65 ≤ c ∧ c ≤ 90 then c - 65
  else if 97 ≤ c ∧ c ≤ 122 then (c - 97) + 26
  else if 48 ≤ c ∧ c ≤ 57 then (c - 48) + 52
  else if c = 43 then 62
  else 63

/-- Plain (unwrapped) base64 encoding of a byte string: bytes are taken in
groups of three and emitted as four alphabet characters, a two-byte tail
produces one padding byte 61 (the equals sign) and a one-byte tail two.
This is `binascii.b2a_base64` without the trailing newline. -/
def encB64 : List Nat → List Nat
  | a :: b :: c :: rest =>
      encChar (a / 4) :: encChar ((a % 4) * 16 + b / 16) ::
      encChar ((b % 16) * 4 + c / 64) :: encChar (c % 64) :: encB64 rest
  | [a, b] =>
      [encChar (a / 4), encChar ((a % 4) * 16 + b / 16), encChar ((b % 16) * 4), 61]
  | [a] =>
      [encChar (a / 4), encChar ((a % 4) * 16), 61, 61]
  | [] => []

/-- Base64 decoding of an encoded byte string, as `binascii.a2b_base64`
behaves on well-formed input: characters are taken in groups of four;
a padding byte 61 in the third position leaves one byte, in the fourth
position two bytes, and otherwise the group yields three bytes. -/
def decB64 : List Nat → List Nat
  | w :: x :: y :: z :: rest =>
      if y = 61 then [decChar w * 4 + decChar x / 16]
      else if z = 61 then
        [decChar w * 4 + decChar x / 16, (decChar x % 16) * 16 + decChar y / 4]
      else
        (decChar w * 4 + decChar x / 16) :: ((decChar x % 16) * 16 + decChar y / 4) ::
        ((decChar y % 4) * 64 + decChar z) :: decB64 rest
  | _ => []

/-- Python 2 `s.encode('base64')`, i.e. `base64.encodestring`: the input is
processed in pieces of 57 bytes (`MAXBINSIZE`), each encoded with
`binascii.b2a_base64` which appends a newline (byte 10); the empty string
encodes to the empty string. -/
def encodestring (s : List Nat) : List Nat :=
  if s = [] then []
  else encB64 (s.take 57) ++ 10 :: encodestring (s.drop 57)
termination_by s.length
decreasing_by
  simp only [List.length_drop]
  rename_i h
  have hpos : 0 < s.length := List.length_pos.mpr h
  omega

/-- The payload encoding performed in `Slicer.command` (slicer.py line 196):
`data.encode('base64').replace('\n', '')` — base64 with the embedded
newlines removed. -/
def commandEncode (s : List Nat) : List Nat :=
  (encodestring s).filter (fun b => b ≠ 10)

/-- Python `line.split(' ', 1)` on a byte string, as used by
`Slicer.process_line` (slicer.py line 229): the part before the first
space byte 32, and `none` when there is no space, else the whole remainder
after the first space. -/
def splitSP : List Nat → List Nat × Option (List Nat)
  | [] => ([], none)
  | b :: bs =>
      if b = 32 then ([], some bs)
      else
        let p := splitSP bs
        (b :: p.1, p.2)

/-- `Slicer.process_line` (slicer.py lines 228-235): split the line at the
first space into the command verb and the rest; when a rest is present it
is base64-decoded. -/
def process_line (line : List Nat) : List Nat × Option (List Nat) :=
  let p := splitSP line
  (p.1, p.2.map decB64)

/-! ### Line framing (`Slicer.listen`, slicer.py lines 200-217) -/

/-- Python `chunk.split('\n', 1)` as a partial operation: `none` when the
buffer holds no newline byte 10, otherwise the part before the first
newline and the remainder after it. -/
def splitNL : List Nat → Option (List Nat × List Nat)
  | [] => none
  | b :: bs =>
      if b = 10 then some ([], bs)
      else (splitNL bs).map (fun p => (b :: p.1, p.2))

theorem splitNL_length :
    ∀ (c l r : List Nat), splitNL c = some (l, r) → r.length < c.length := by
  intro c
  induction c with
  | nil => intro l r h; simp [splitNL] at h
  | cons b bs ih =>
      intro l r h
      simp only [splitNL] at h
      split at h
      · simp only [Option.some.injEq, Prod.mk.injEq] at h
        simp only [← h.2, List.length_cons]
        omega
      · cases hs : splitNL bs with
        | none => rw [hs] at h; simp at h
        | some p =>
            rw [hs] at h
            simp only [Option.map_some', Option.some.injEq, Prod.mk.injEq] at h
            have := ih p.1 p.2 (by rw [hs])
            simp only [← h.2, List.length_cons]
            omega

/-- The framing work of one pass of `Slicer.listen`'s outer loop on a buffer
(slicer.py lines 202-217 with reads elided): as long as the buffer contains
a newline, `line, chunk = chunk.split('\n', 1)` emits the part before the
first newline as a line; the returned pair is the emitted lines in order
and the trailing remainder kept as the buffer. -/
def listenLines (chunk : List Nat) : List (List Nat) × List Nat :=
  match h : splitNL chunk with
  | none => ([], chunk)
  | some (line, rest) =>
      let p := listenLines rest
      (line :: p.1, p.2)
termination_by chunk.length
decreasing_by
  exact splitNL_length chunk line rest h

/-- Feeding successive chunks through the framing loop of `Slicer.listen`:
each arriving chunk is appended to the pending buffer (`chunk += data`,
slicer.py line 209) and all complete lines are split off; returns all
emitted lines in order together with the final pending buffer. -/
def feedChunks (buf : List Nat) : List (List Nat) → List (List Nat) × List Nat
  | [] => ([], buf)
  | c :: cs =>
      let p := listenLines (buf ++ c)
      let q := feedChunks p.2 cs
      (p.1 ++ q.1, q.2)

/-! ### Shared connection state (`Slicer.__init__`, slicer.py lines 37-49)

The mutable state shared between the caller's thread and the reader thread
is the line queue `self.lines` and the flag `self.closed`, both guarded by
the condition variable `self.lines_cv`.  Stateful methods are embedded as
explicit state transformers; the externally visible side effects of
`_close` are recorded as an ordered action trace. -/

structure SlicerState where
  lines : List (List Nat)
  closed : Bool
deriving DecidableEq, Repr

/-- The observable side effects `Slicer._close` can perform, in the order
the embedding records them: setting `self.closed`, `self.lines_cv.notifyAll()`,
`self.p.kill()`, `self.read_thread.join()` and `self.p.wait()`. -/
inductive CloseAction where
  | setClosed
  | wakeAll
  | killProc
  | joinReader
  | waitProc
deriving DecidableEq, Repr

/-- `Slicer._close` (slicer.py lines 60-78): under both locks, bail out if
`self.closed` is already set; otherwise set it and wake all waiters, then
kill the subprocess, join the reader thread unless called from the reader
(`from_read`), and wait on the process.  Returns the new state and the
trace of performed actions. -/
def close_ (st : SlicerState) (from_read : Bool) : SlicerState × List CloseAction :=
  if st.closed then (st, [])
  else
    ({ st with closed := true },
     [CloseAction.setClosed, CloseAction.wakeAll, CloseAction.killProc] ++
       (if from_read then [] else [CloseAction.joinReader]) ++
       [CloseAction.waitProc])

/-- The outcome of one evaluation of `Slicer.get_line`'s wait loop
(slicer.py lines 219-226) on the shared state: a popped line (after
`process_line`) with the remaining state, the raised
"queued connection closed" exception, or blocking in `self.lines_cv.wait()`
until the state changes. -/
inductive GetLineOutcome where
  | line (resp : List Nat × Option (List Nat)) (rest : SlicerState)
  | closedError
  | wouldBlock
deriving DecidableEq, Repr

/-- `Slicer.get_line` (slicer.py lines 219-226): while the queue is empty,
raise if `self.closed` is set, otherwise wait; with a non-empty queue pop
the oldest line and return `process_line` of it. -/
def get_line (st : SlicerState) : GetLineOutcome :=
  match st.lines with
  | l :: ls => GetLineOutcome.line (process_line l) ⟨ls, st.closed⟩
  | [] => if st.closed then GetLineOutcome.closedError else GetLineOutcome.wouldBlock

/-- The EOF branch of `Slicer.listen` (slicer.py lines 205-208): when
`os.read` returns no data the reader calls `self._close(True)` and
returns; the pending buffer `chunk` is dropped without being appended to
the queue.  The buffer is a parameter so the embedding shows it is
discarded. -/
def listenEOF (st : SlicerState) (buf : List Nat) : SlicerState × List CloseAction :=
  close_ st true

/-! ### The lock-level shutdown race (claim C1)

The state model above elides the locks.  For the scenario of a command
blocked in `get_line` while the reader observes EOF, the locks matter:
`command` holds `self.slicer_lock` across the whole write-then-read
sequence (line 195), `get_line`'s `lines_cv.wait()` releases only the
condition variable (line 224), and `_close` acquires `self.slicer_lock`
first of all (line 63).  The following small-step model captures exactly
that interaction for one blocked caller and the reader. -/

/-- Where the caller thread is in `command`/`get_line`: blocked inside
`self.lines_cv.wait()` at slicer.py line 224 while holding
`self.slicer_lock`, or having re-checked the flag and raised the
"queued connection closed" error (line 223). -/
inductive CallerSite where
  | blockedInWait
  | raisedClosed
deriving DecidableEq, Repr

/-- Where the reader thread is in its EOF handling: at
`with self.slicer_lock` of `_close(True)` (slicer.py line 63), inside the
critical section (lines 64-70), or finished with it. -/
inductive ReaderSite where
  | atSlicerLock
  | inCloseCritical
  | finishedClose
deriving DecidableEq, Repr

/-- A configuration of the two threads during the shutdown race, with the
line queue empty throughout: whether the caller holds `self.slicer_lock`,
the `self.closed` flag, whether the caller's wait has a pending
notification, and the two thread positions. -/
structure CloseRace where
  slicerLockHeldByCaller : Bool
  closed : Bool
  notified : Bool
  caller : CallerSite
  reader : ReaderSite
deriving DecidableEq, Repr

/-- All configurations reachable in one step from `c`.  The reader may
enter `_close`'s critical section only when `self.slicer_lock` is free
(slicer.py line 63); inside it, it sets `self.closed` and issues
`notifyAll` (lines 69-70).  The caller, blocked in `lines_cv.wait()`, can
run only when notified; it then re-checks the loop of lines 221-224: with
the queue still empty it raises the closed error if `self.closed` is set
(releasing `self.slicer_lock` as `command`'s with-block unwinds) and
otherwise consumes the notification and waits again. -/
def raceSteps (c : CloseRace) : List CloseRace :=
  (if c.reader = ReaderSite.atSlicerLock ∧ c.slicerLockHeldByCaller = false then
    [{ c with reader := ReaderSite.inCloseCritical }]
  else []) ++
  (if c.reader = ReaderSite.inCloseCritical then
    [{ c with closed := true, notified := true, reader := ReaderSite.finishedClose }]
  else []) ++
  (if c.caller = CallerSite.blockedInWait ∧ c.notified = true then
    [if c.closed then
      { c with
        caller := CallerSite.raisedClosed,
        notified := false,
        slicerLockHeldByCaller := false }
    else { c with notified := false }]
  else [])

/-- The configuration of claim C1's scenario: a command has been written
and its caller is blocked inside `get_line` awaiting the response (so the
caller holds `self.slicer_lock`), the connection is not yet closed, and
the reader has just observed EOF and entered `_close(True)` at the
`with self.slicer_lock` of line 63. -/
def eofWhileBlockedConfig : CloseRace :=
  { slicerLockHeldByCaller := true, closed := false, notified := false,
    caller := CallerSite.blockedInWait, reader := ReaderSite.atSlicerLock }

/-! ### Response dispatch and candidates parsing -/

/-- The failures a response handler can raise: the subprocess-reported
`ERROR` message (`raise Exception(data)`), or the protocol violation
`"bad command recieved %s %s"` for an unexpected verb. -/
inductive SlicerErr where
  | remote (msg : Option String)
  | badCommand (cmd : String) (data : Option String)
deriving DecidableEq, Repr

/-- `Slicer.generic_response` (slicer.py lines 83-90) applied to the
`(cmd, data)` pair produced by `get_line`: `ERROR` raises the decoded
message, any verb other than `OK` raises the bad-command protocol error,
and `OK` returns `True`. -/
def generic_response (cmd : String) (data : Option String) : Except SlicerErr Bool :=
  if cmd = "ERROR" then Except.error (SlicerErr.remote data)
  else if cmd ≠ "OK" then Except.error (SlicerErr.badCommand cmd data)
  else Except.ok true

/-- Python 2 whitespace for `str.strip()`: space, tab, newline, carriage
return, vertical tab and form feed. -/
def isPySpace (c : Char) : Bool :=
  c = ' ' ∨ c = '\t' ∨ c = '\n' ∨ c = '\r' ∨ c = '\x0b' ∨ c = '\x0c'

/-- Python `data.strip()`: remove leading and trailing whitespace. -/
def pyStrip (s : List Char) : List Char :=
  ((s.dropWhile isPySpace).reverse.dropWhile isPySpace).reverse

/-- Python `data.split('\n')`: split at every newline, keeping empty
pieces, so the result always has one more piece than there are newlines. -/
def splitAllNL : List Char → List (List Char)
  | [] => [[]]
  | c :: cs =>
      if c = '\n' then [] :: splitAllNL cs
      else
        match splitAllNL cs with
        | p :: ps => (c :: p) :: ps
        | [] => [[c]]

/-- Python `', ' in line`: the line contains a comma immediately followed
by a space. -/
def containsCS : List Char → Bool
  | [] => false
  | [_] => false
  | a :: b :: rest => (a = ',' ∧ b = ' ') ∨ containsCS (b :: rest)

/-- Python `line.split(', ', 1)`: split at the first occurrence of the
comma-space delimiter, giving two pieces when it occurs and one piece
(the whole line) when it does not. -/
def splitCS1 : List Char → List (List Char)
  | [] => [[]]
  | [c] => [[c]]
  | a :: b :: rest =>
      if a = ',' ∧ b = ' ' then [[], rest]
      else
        match splitCS1 (b :: rest) with
        | p :: ps => (a :: p) :: ps
        | [] => [[a]]

/-- Digit accumulation for `pyInt`. -/
def digitsToNat (acc : Nat) : List Char → Option Nat
  | [] => some acc
  | c :: cs =>
      if '0' ≤ c ∧ c ≤ '9' then digitsToNat (acc * 10 + (c.toNat - 48)) cs
      else none

/-- Python 2 `int(s)` on a string: strip whitespace, allow one optional
sign, then require a non-empty run of decimal digits; anything else is a
`ValueError`, modelled as `none`. -/
def pyInt (s : List Char) : Option Int :=
  match pyStrip s with
  | '-' :: ds => if ds = [] then none else (digitsToNat 0 ds).map (fun n => -(n : Int))
  | '+' :: ds => if ds = [] then none else (digitsToNat 0 ds).map (fun n => (n : Int))
  | ds => if ds = [] then none else (digitsToNat 0 ds).map (fun n => (n : Int))

/-- One parsed row of a `CANDIDATES` payload: the record
`{'label': row[1], 'count': int(row[0])}` built in
`Slicer.candidates_response`. -/
structure Candidate where
  count : Int
  label : List Char
deriving DecidableEq, Repr

/-- Building one record from one split row, `row = line.split(', ', 1)`:
`int(row[0])` may raise `ValueError` (modelled as `none`), and a row
without two pieces would raise `IndexError`. -/
def candidateOfRow (row : List (List Char)) : Option Candidate :=
  match row with
  | [c0, c1] => (pyInt c0).map (fun n => { count := n, label := c1 })
  | _ => none

/-- The payload parsing of `Slicer.candidates_response` (slicer.py lines
102-110): keep the rows of `data.strip().split('\n')` that are non-empty
and contain the comma-space delimiter, split each at the first delimiter,
and build one `{count, label}` record per row, in order; `none` models an
exception escaping the list comprehension. -/
def candidatesParse (data : List Char) : Option (List Candidate) :=
  let rows := (splitAllNL (pyStrip data)).filter (fun l => l ≠ [] ∧ containsCS l)
  (rows.map splitCS1).mapM candidateOfRow

/-- Worded from the claim for comparison with `candidatesParse`: one
record per row that contains the comma-space delimiter (with no separate
non-emptiness test), in payload order, each row split at its first
delimiter into an integer count and a label. -/
def candidatesSpec (data : List Char) : Option (List Candidate) :=
  (((splitAllNL (pyStrip data)).filter (fun l => containsCS l)).map splitCS1).mapM
    candidateOfRow

/-! ### Lemmas about base64 -/

theorem decChar_encChar : ∀ n < 64, decChar (encChar n) = n := by decide

theorem encChar_ne_pad (n : Nat) : encChar n ≠ 61 := by
  simp only [encChar]
  split_ifs <;> omega

theorem encChar_ne_newline (n : Nat) : encChar n ≠ 10 := by
  simp only [encChar]
  split_ifs <;> omega

/-- Plain base64 output contains no newline byte. -/
theorem encB64_no_newline (s : List Nat) : ∀ b ∈ encB64 s, b ≠ 10 := by
  induction s using encB64.induct with
  | case1 a b c rest ih =>
      intro x hx
      simp only [encB64, List.mem_cons] at hx
      rcases hx with h | h | h | h | h
      · rw [h]; exact encChar_ne_newline _
      · rw [h]; exact encChar_ne_newline _
      · rw [h]; exact encChar_ne_newline _
      · rw [h]; exact encChar_ne_newline _
      · exact ih x h
  | case2 a b =>
      intro x hx
      simp only [encB64, List.mem_cons] at hx
      rcases hx with h | h | h | h | h
      · rw [h]; exact encChar_ne_newline _
      · rw [h]; exact encChar_ne_newline _
      · rw [h]; exact encChar_ne_newline _
      · omega
      · simp at h
  | case3 a =>
      intro x hx
      simp only [encB64, List.mem_cons] at hx
      rcases hx with h | h | h | h | h
      · rw [h]; exact encChar_ne_newline _
      · rw [h]; exact encChar_ne_newline _
      · omega
      · omega
      · simp at h
  | case4 => intro x hx; simp [encB64] at hx

/-- Plain base64 encoding distributes over an append at a triple boundary. -/
theorem encB64_append (a : List Nat) :
    ∀ b, a.length % 3 = 0 → encB64 (a ++ b) = encB64 a ++ encB64 b := by
  induction a using encB64.induct with
  | case1 x y z rest ih =>
      intro b hlen
      simp only [List.length_cons] at hlen
      have hrest : rest.length % 3 = 0 := by omega
      simp only [List.cons_append, List.append_eq, encB64, ih b hrest, List.append_assoc]
  | case2 x y => intro b hlen; simp at hlen
  | case3 x => intro b hlen; simp at hlen
  | case4 => intro b _; simp [encB64]

/-- Removing the newlines of the line-wrapped Python encoding gives the
plain base64 encoding: `data.encode('base64').replace('\n', '')` is plain
base64. -/
theorem commandEncode_eq_encB64 (s : List Nat) : commandEncode s = encB64 s := by
  rw [commandEncode]
  induction s using encodestring.induct with
  | case1 =>
      simp [encodestring, encB64]
  | case2 s hnil ih =>
      rw [encodestring]
      simp only [if_neg hnil, List.filter_append, List.filter_cons]
      have hid : (encB64 (s.take 57)).filter (fun b => b ≠ 10) = encB64 (s.take 57) := by
        apply List.filter_eq_self.mpr
        intro b hb
        simpa using encB64_no_newline (s.take 57) b hb
      have h10 : ((10 : Nat) ≠ 10) = False := by simp
      simp only [hid, decide_eq_true_eq, h10]
      rw [if_neg (by simp)]
      rw [ih]
      by_cases h57 : 57 ≤ s.length
      · have htake : (s.take 57).length % 3 = 0 := by
          simp only [List.length_take]
          omega
        rw [← encB64_append (s.take 57) (s.drop 57) htake, List.take_append_drop]
      · have hdrop : s.drop 57 = [] := List.drop_eq_nil_of_le (by omega)
        have htake : s.take 57 = s := List.take_of_length_le (by omega)
        rw [hdrop, htake]
        simp [encB64]

/-- Decoding inverts plain base64 encoding on byte strings. -/
theorem decB64_encB64 (s : List Nat) (hbytes : ∀ b ∈ s, b < 256) :
    decB64 (encB64 s) = s := by
  induction s using encB64.induct with
  | case1 a b c rest ih =>
      have ha : a < 256 := hbytes a (by simp)
      have hb : b < 256 := hbytes b (by simp)
      have hc : c < 256 := hbytes c (by simp)
      simp only [encB64, decB64]
      rw [if_neg (encChar_ne_pad _), if_neg (encChar_ne_pad _)]
      rw [decChar_encChar (a / 4) (by omega),
          decChar_encChar ((a % 4) * 16 + b / 16) (by omega),
          decChar_encChar ((b % 16) * 4 + c / 64) (by omega),
          decChar_encChar (c % 64) (by omega)]
      rw [ih (fun x hx => hbytes x (by simp [hx]))]
      congr 1
      · omega
      congr 1
      · omega
      congr 1
      · omega
  | case2 a b =>
      have ha : a < 256 := hbytes a (by simp)
      have hb : b < 256 := hbytes b (by simp)
      simp only [encB64, decB64]
      rw [if_neg (encChar_ne_pad _)]
      simp only [if_true]
      rw [decChar_encChar (a / 4) (by omega),
          decChar_encChar ((a % 4) * 16 + b / 16) (by omega),
          decChar_encChar ((b % 16) * 4) (by omega)]
      have h1 : a / 4 * 4 + ((a % 4) * 16 + b / 16) / 16 = a := by omega
      have h2 : ((a % 4) * 16 + b / 16) % 16 * 16 + (b % 16) * 4 / 4 = b := by omega
      rw [h1, h2]
  | case3 a =>
      have ha : a < 256 := hbytes a (by simp)
      simp only [encB64, decB64]
      simp only [if_true]
      rw [decChar_encChar (a / 4) (by omega),
          decChar_encChar ((a % 4) * 16) (by omega)]
      have h1 : a / 4 * 4 + (a % 4) * 16 / 16 = a := by omega
      rw [h1]
  | case4 => simp [encB64, decB64]

theorem splitSP_no_space (cmdVerb rest : List Nat) (h : 32 ∉ cmdVerb) :
    splitSP (cmdVerb ++ 32 :: rest) = (cmdVerb, some rest) := by
  induction cmdVerb with
  | nil => simp [splitSP]
  | cons b bs ih =>
      have hb : b ≠ 32 := by
        intro hb
        exact h (by simp [hb])
      simp only [List.cons_append, List.append_eq, splitSP, if_neg hb]
      rw [ih (fun hm => h (by simp [hm]))]

/-! ### Lemmas about the line framer -/

theorem listenLines_eq_none (x : List Nat) (h : splitNL x = none) :
    listenLines x = ([], x) := by
  rw [listenLines]
  split
  · rfl
  · rename_i line rest hs
    rw [h] at hs
    exact absurd hs (by simp)

theorem listenLines_eq_some (x l r : List Nat) (h : splitNL x = some (l, r)) :
    listenLines x = (l :: (listenLines r).1, (listenLines r).2) := by
  rw [listenLines]
  split
  · rename_i hnone
    rw [h] at hnone
    exact absurd hnone (by simp)
  · rename_i line rest hs
    rw [h] at hs
    simp only [Option.some.injEq, Prod.mk.injEq] at hs
    rw [hs.1, hs.2]

theorem splitNL_append_some (x y : List Nat) :
    ∀ l r, splitNL x = some (l, r) → splitNL (x ++ y) = some (l, r ++ y) := by
  induction x with
  | nil => intro l r h; simp [splitNL] at h
  | cons b bs ih =>
      intro l r h
      simp only [splitNL] at h
      simp only [List.cons_append, splitNL, List.append_eq]
      split at h
      · rename_i hb
        simp only [Option.some.injEq, Prod.mk.injEq] at h
        simp [hb, ← h.1, ← h.2]
      · rename_i hb
        simp only [hb, ite_false]
        cases hs : splitNL bs with
        | none => rw [hs] at h; simp at h
        | some p =>
            rw [hs] at h
            simp only [Option.map_some', Option.some.injEq, Prod.mk.injEq] at h
            rw [ih p.1 p.2 hs]
            simp [← h.1, ← h.2]

/-- The pending buffer left by the framer never contains a newline. -/
theorem listenLines_buffer_no_newline (x : List Nat) :
    splitNL (listenLines x).2 = none := by
  induction x using listenLines.induct with
  | case1 x h =>
      rw [listenLines_eq_none x h]
      exact h
  | case2 x line rest h ih =>
      rw [listenLines_eq_some x line rest h]
      exact ih

/-- Framing a concatenation: the lines of `x ++ y` are the lines of `x`
followed by the lines of `x`'s leftover buffer prepended to `y`, and the
final buffer comes from that second pass. -/
theorem listenLines_append (x y : List Nat) :
    listenLines (x ++ y) =
      ((listenLines x).1 ++ (listenLines ((listenLines x).2 ++ y)).1,
       (listenLines ((listenLines x).2 ++ y)).2) := by
  induction x using listenLines.induct with
  | case1 x h =>
      rw [listenLines_eq_none x h]
      simp
  | case2 x line rest h ih =>
      rw [listenLines_eq_some x line rest h]
      rw [listenLines_eq_some (x ++ y) line (rest ++ y) (splitNL_append_some x y line rest h)]
      rw [ih]
      simp

/-- With a newline-free pending buffer, feeding the chunks one at a time
is the same as feeding the buffer followed by the whole concatenation. -/
theorem feedChunks_flatten (chunks : List (List Nat)) :
    ∀ buf, splitNL buf = none →
      feedChunks buf chunks = listenLines (buf ++ chunks.flatten) := by
  induction chunks with
  | nil =>
      intro buf hbuf
      simp only [feedChunks, List.flatten_nil, List.append_nil]
      rw [listenLines_eq_none buf hbuf]
  | cons c cs ih =>
      intro buf hbuf
      simp only [feedChunks, List.flatten_cons]
      rw [ih (listenLines (buf ++ c)).2 (listenLines_buffer_no_newline (buf ++ c))]
      rw [← List.append_assoc]
      rw [listenLines_append (buf ++ c) cs.flatten]

theorem splitNL_some_decomp (c : List Nat) :
    ∀ l r, splitNL c = some (l, r) → c = l ++ 10 :: r := by
  induction c with
  | nil => intro l r h; simp [splitNL] at h
  | cons b bs ih =>
      intro l r h
      simp only [splitNL] at h
      split at h
      · rename_i hb
        simp only [Option.some.injEq, Prod.mk.injEq] at h
        rw [← h.1, ← h.2, hb]
        rfl
      · cases hs : splitNL bs with
        | none => rw [hs] at h; simp at h
        | some p =>
            rw [hs] at h
            simp only [Option.map_some', Option.some.injEq, Prod.mk.injEq] at h
            have := ih p.1 p.2 hs
            rw [← h.1, ← h.2]
            simpa using this

/-- The framer drops and reorders nothing: re-inserting the newline after
every emitted line and appending the final buffer reconstructs the input
byte stream exactly. -/
theorem listenLines_reconstruct (x : List Nat) :
    ((listenLines x).1.map (fun l => l ++ [10])).flatten ++ (listenLines x).2 = x := by
  induction x using listenLines.induct with
  | case1 x h =>
      rw [listenLines_eq_none x h]
      simp
  | case2 x line rest h ih =>
      rw [listenLines_eq_some x line rest h]
      have hdec := splitNL_some_decomp x line rest h
      simp only [List.map_cons, List.flatten_cons]
      rw [List.append_assoc, ih, hdec]
      simp

/-! ### Theorems -/

/-- With `self.slicer_lock` free (no command in flight), the model is not
stuck: the reader's `_close(True)` can enter its critical section, set the
closed flag and notify, and a subsequently blocked caller would be woken
into raising the closed error.  This shows the deadlock below is caused by
the held command lock, not by the model lacking transitions. -/
theorem raceSteps_progress_when_lock_free :
    raceSteps { eofWhileBlockedConfig with slicerLockHeldByCaller := false } =
      [{ eofWhileBlockedConfig with
         slicerLockHeldByCaller := false,
         reader := ReaderSite.inCloseCritical }] ∧
    raceSteps { eofWhileBlockedConfig with
                slicerLockHeldByCaller := false,
                reader := ReaderSite.inCloseCritical } =
      [{ eofWhileBlockedConfig with
         slicerLockHeldByCaller := false,
         closed := true,
         notified := true,
         reader := ReaderSite.finishedClose }] ∧
    raceSteps { eofWhileBlockedConfig with
                slicerLockHeldByCaller := false,
                closed := true,
                notified := true,
                reader := ReaderSite.finishedClose } =
      [{ eofWhileBlockedConfig with
         slicerLockHeldByCaller := false,
         closed := true,
         notified := false,
         caller := CallerSite.raisedClosed,
         reader := ReaderSite.finishedClose }] := by
  refine ⟨?_, ?_, ?_⟩ <;> decide

/-- Claim C1 (deadlock exhibited): in the configuration where a command is
blocked inside `get_line` awaiting its response — so the caller holds
`self.slicer_lock` from `command` — and the reader has observed EOF and
entered `_close(True)`, no thread can take a step: the reader blocks
acquiring `self.slicer_lock`, so the closed flag is never set, `notifyAll`
never runs, and the caller is never woken into raising the
closed-connection error.  The command hangs indefinitely, contradicting
the claimed bounded-time failure. -/
theorem eof_during_blocked_get_line_deadlocks :
    raceSteps eofWhileBlockedConfig = [] ∧
    eofWhileBlockedConfig.caller ≠ CallerSite.raisedClosed ∧
    eofWhileBlockedConfig.closed = false := by
  refine ⟨?_, ?_, ?_⟩ <;> decide

/-- Claim C2: for every argument byte string — newlines, spaces and control
bytes included — encoding as in `command` (base64 with embedded newlines
removed, written after the verb and a space) and then decoding as in
`process_line` (base64 decode of the text after the first space) yields
the original string exactly. -/
theorem command_encode_process_line_roundtrip
    (s cmdVerb : List Nat) (hbytes : ∀ b ∈ s, b < 256) (hcmd : 32 ∉ cmdVerb) :
    process_line (cmdVerb ++ 32 :: commandEncode s) = (cmdVerb, some s) := by
  simp only [process_line, splitSP_no_space cmdVerb (commandEncode s) hcmd,
    Option.map_some']
  rw [commandEncode_eq_encB64, decB64_encB64 s hbytes]

theorem command_encode_process_line_roundtrip_witness :
    process_line ([76, 79, 65, 68] ++ 32 :: commandEncode [97, 10, 32, 98, 0, 255]) =
      ([76, 79, 65, 68], some [97, 10, 32, 98, 0, 255]) :=
  command_encode_process_line_roundtrip [97, 10, 32, 98, 0, 255] [76, 79, 65, 68]
    (by decide) (by decide)

/-- Claim C3: the candidates payload parser produces, in payload order, one
record per row containing the comma-space delimiter (the code's extra
non-emptiness test is redundant, so the parse agrees with the claim's
description for every payload), and on the payload of the scenario it
yields exactly the two records of the claim. -/
theorem candidates_response_rows :
    (∀ data : List Char, candidatesParse data = candidatesSpec data) ∧
    candidatesParse "2, foo\n1, bar\n".data =
      some [{ count := 2, label := "foo".data }, { count := 1, label := "bar".data }] := by
  constructor
  · intro data
    rw [candidatesParse, candidatesSpec]
    have hfilter :
        (splitAllNL (pyStrip data)).filter (fun l => l ≠ [] ∧ containsCS l) =
          (splitAllNL (pyStrip data)).filter (fun l => containsCS l) := by
      apply List.filter_congr
      intro l _
      cases l with
      | nil => simp [containsCS]
      | cons c cs => simp
    rw [hfilter]
  · decide

/-- Claim C4: chunking invariance of the framing loop in `listen` — feeding
any chunks one at a time produces exactly the lines (in order) and final
buffer of feeding the whole concatenated stream at once, and no byte is
dropped or reordered: lines, newlines and buffer reconstruct the stream. -/
theorem listen_chunking_invariance (chunks : List (List Nat)) :
    feedChunks [] chunks = listenLines chunks.flatten ∧
    ((listenLines chunks.flatten).1.map (fun l => l ++ [10])).flatten ++
        (listenLines chunks.flatten).2 = chunks.flatten := by
  constructor
  · have := feedChunks_flatten chunks [] rfl
    simpa using this
  · exact listenLines_reconstruct chunks.flatten

/-- Claim C5: `generic_response` returns `True` for verb `OK` with any
payload (present or absent), fails with exactly the decoded error message
for verb `ERROR`, and fails with the bad-command protocol error for any
other verb. -/
theorem generic_response_dispatch (cmd : String) (data : Option String) :
    generic_response "OK" data = Except.ok true ∧
    generic_response "ERROR" data = Except.error (SlicerErr.remote data) ∧
    (cmd ≠ "OK" → cmd ≠ "ERROR" →
      generic_response cmd data = Except.error (SlicerErr.badCommand cmd data)) := by
  refine ⟨by simp [generic_response], by simp [generic_response], ?_⟩
  intro hok herr
  simp [generic_response, herr, hok]

theorem generic_response_dispatch_witness :
    generic_response "OK" none = Except.ok true ∧
    generic_response "ERROR" (some "file not found") =
      Except.error (SlicerErr.remote (some "file not found")) ∧
    generic_response "WAT" none = Except.error (SlicerErr.badCommand "WAT" none) :=
  ⟨(generic_response_dispatch "WAT" none).1,
   (generic_response_dispatch "WAT" (some "file not found")).2.1,
   (generic_response_dispatch "WAT" none).2.2 (by decide) (by decide)⟩

/-- Claim C6: with the closed flag set and an empty line queue, `get_line`
raises the closed-connection error immediately instead of waiting, so a
command issued after shutdown fails rather than blocking. -/
theorem get_line_closed_empty_raises
    (st : SlicerState) (hclosed : st.closed = true) (hempty : st.lines = []) :
    get_line st = GetLineOutcome.closedError := by
  cases st with
  | mk lines closed =>
      simp only at hempty hclosed
      subst hempty hclosed
      simp [get_line]

theorem get_line_closed_empty_raises_witness :
    get_line ⟨[], true⟩ = GetLineOutcome.closedError :=
  get_line_closed_empty_raises ⟨[], true⟩ rfl rfl

/-- Claim C7: calling `_close` (from either caller) on a state whose closed
flag is already set is a no-op: the state is unchanged and no action — in
particular no kill, join or wait — is performed. -/
theorem close_idempotent
    (st : SlicerState) (from_read : Bool) (hclosed : st.closed = true) :
    close_ st from_read = (st, []) := by
  simp [close_, hclosed]

theorem close_idempotent_witness :
    close_ ⟨[[79, 75]], true⟩ false = (⟨[[79, 75]], true⟩, []) :=
  close_idempotent ⟨[[79, 75]], true⟩ false rfl

/-- Claim C8: when the reader observes EOF while the framing buffer holds a
dangling remainder, the remainder is discarded — the line queue is exactly
what it was, the remainder is never appended — and shutdown is triggered:
on a not-yet-closed connection the closed flag becomes set. -/
theorem listen_eof_discards_remainder
    (st : SlicerState) (buf : List Nat) (hopen : st.closed = false) :
    (listenEOF st buf).1.lines = st.lines ∧
    (listenEOF st buf).1.closed = true ∧
    CloseAction.killProc ∈ (listenEOF st buf).2 := by
  simp [listenEOF, close_, hopen]

theorem listen_eof_discards_remainder_witness :
    (listenEOF ⟨[[79, 75]], false⟩ [112, 97, 114]).1.lines = [[79, 75]] ∧
    (listenEOF ⟨[[79, 75]], false⟩ [112, 97, 114]).1.closed = true ∧
    CloseAction.killProc ∈ (listenEOF ⟨[[79, 75]], false⟩ [112, 97, 114]).2 :=
  listen_eof_discards_remainder ⟨[[79, 75]], false⟩ [112, 97, 114] rfl

/-- Claim C9: the winning `_close` performs, in order: set the closed flag,
wake all waiters on the line queue's condition variable, kill the
subprocess, then — only when not called from the reader — join the reader
thread, and finally wait on the process; the reader-called variant never
joins the reader thread, and both variants end in the process wait. -/
theorem close_action_order (st : SlicerState) (hopen : st.closed = false) :
    (close_ st false).2 =
      [CloseAction.setClosed, CloseAction.wakeAll, CloseAction.killProc,
       CloseAction.joinReader, CloseAction.waitProc] ∧
    (close_ st true).2 =
      [CloseAction.setClosed, CloseAction.wakeAll, CloseAction.killProc,
       CloseAction.waitProc] ∧
    CloseAction.joinReader ∉ (close_ st true).2 ∧
    (close_ st false).2.getLast? = some CloseAction.waitProc ∧
    (close_ st true).2.getLast? = some CloseAction.waitProc := by
  simp [close_, hopen, List.getLast?]

theorem close_action_order_witness :
    (close_ ⟨[], false⟩ false).2 =
      [CloseAction.setClosed, CloseAction.wakeAll, CloseAction.killProc,
       CloseAction.joinReader, CloseAction.waitProc] ∧
    (close_ ⟨[], false⟩ true).2 =
      [CloseAction.setClosed, CloseAction.wakeAll, CloseAction.killProc,
       CloseAction.waitProc] ∧
    CloseAction.joinReader ∉ (close_ ⟨[], false⟩ true).2 ∧
    (close_ ⟨[], false⟩ false).2.getLast? = some CloseAction.waitProc ∧
    (close_ ⟨[], false⟩ true).2.getLast? = some CloseAction.waitProc :=
  close_action_order ⟨[], false⟩ rfl

/-- Claim C10: `get_line` consults the closed flag only while the queue is
empty: whenever at least one line is queued it pops and returns the oldest
line (through `process_line`) regardless of the closed flag, so responses
received before closure stay consumable. -/
theorem get_line_prefers_queued_line
    (st : SlicerState) (l : List Nat) (ls : List (List Nat))
    (hq : st.lines = l :: ls) :
    get_line st = GetLineOutcome.line (process_line l) ⟨ls, st.closed⟩ := by
  cases st with
  | mk lines closed =>
      simp only at hq
      subst hq
      simp [get_line]

theorem get_line_prefers_queued_line_witness :
    get_line ⟨[[79, 75]], true⟩ = GetLineOutcome.line ([79, 75], none) ⟨[], true⟩ :=
  (get_line_prefers_queued_line ⟨[[79, 75]], true⟩ [79, 75] [] rfl).trans (by decide)

end Slicer
